import Mathlib

/-!
Verification of the ConfDDL conference-deadline dashboard core
(`src/app/page.tsx`): deadline recurrence resolution, countdown
formatting, the multi-key comparator, and the view projector.

Timestamps are modelled as `Int` milliseconds since the Unix epoch,
matching JavaScript `Date.getTime()`.  Calendar construction follows the
ECMAScript specification for the Date Time String Format: a string
`YYYY-MM-DDTHH:MM:00±HH:MM` denotes the proleptic-Gregorian civil
instant shifted by the fixed UTC offset.  UTC offsets are modelled as
signed minutes (`"-12:00"` is `-720`).

The conference catalog and the `areaOrder` configuration live in
`data/conferences.ts`, which only declares data; the record shape and
the configuration are reproduced here from the fields the page component
reads and from the spec's data-model section, and theorems are stated
for an arbitrary catalog and area order.  JavaScript's
`String.prototype.localeCompare` is locale dependent, so it is
modelled as an abstract comparison function `lc`; properties a collation
satisfies are taken as explicit hypotheses where a theorem needs them.
-/

namespace ConfDDL

/-! ### Clock and calendar arithmetic (ECMAScript `Date` semantics) -/

def msPerMinute : Int := 60000

def msPerHour : Int := 3600000

def msPerDay : Int := 86400000

/-- Gregorian leap-year rule, as in ECMAScript `DaysInYear`. -/
def isLeapYear (y : Int) : Bool :=
  y % 4 == 0 && (y % 100 != 0 || y % 400 == 0)

/-- ECMAScript `DayFromYear`: the day number of January 1 of year `y`,
counted in days from 1970-01-01.  `Int` division here is Euclidean
division, which agrees with `floor` for the positive literal divisors. -/
def dayFromYear (y : Int) : Int :=
  365 * (y - 1970) + (y - 1969) / 4 - (y - 1901) / 100 + (y - 1601) / 400

/-- Inverse of `dayFromYear`: the year containing day number `d`
(ECMAScript `YearFromTime` on whole days).  The initial estimate from
the 146097-days-per-400-years average is within one year of the true
value, so checking the two neighbours suffices. -/
def yearFromDay (d : Int) : Int :=
  let a := 1970 + (400 * d) / 146097
  if dayFromYear (a + 1) ≤ d then a + 1
  else if dayFromYear a ≤ d then a
  else a - 1

/-- `Date.prototype.getUTCFullYear` on a millisecond timestamp. -/
def getUTCFullYear (t : Int) : Int :=
  yearFromDay (t / msPerDay)

/-- Number of days in month `m` (1-based) of year `y`. -/
def daysInMonth (y : Int) (m : Nat) : Int :=
  match m with
  | 1 => 31
  | 2 => if isLeapYear y then 29 else 28
  | 3 => 31
  | 4 => 30
  | 5 => 31
  | 6 => 30
  | 7 => 31
  | 8 => 31
  | 9 => 30
  | 10 => 31
  | 11 => 30
  | 12 => 31
  | _ => 0

/-- Number of days in month `m` in a non-leap year: the least value
`daysInMonth y m` takes over all years `y`. -/
def daysInMonthMin (m : Nat) : Int :=
  match m with
  | 1 => 31
  | 2 => 28
  | 3 => 31
  | 4 => 30
  | 5 => 31
  | 6 => 30
  | 7 => 31
  | 8 => 31
  | 9 => 30
  | 10 => 31
  | 11 => 30
  | 12 => 31
  | _ => 0

/-- Cumulative number of days strictly before month `m` (1-based) in a
year whose leap flag is `leap`. -/
def daysBeforeMonth (leap : Bool) (m : Nat) : Int :=
  match m with
  | 1 => 0
  | 2 => 31
  | 3 => if leap then 60 else 59
  | 4 => if leap then 91 else 90
  | 5 => if leap then 121 else 120
  | 6 => if leap then 152 else 151
  | 7 => if leap then 182 else 181
  | 8 => if leap then 213 else 212
  | 9 => if leap then 244 else 243
  | 10 => if leap then 274 else 273
  | 11 => if leap then 305 else 304
  | 12 => if leap then 335 else 334
  | _ => 0

/-- Millisecond timestamp of the civil instant
`y-m-d h:mi:00` UTC (ECMAScript `MakeDate`/`MakeDay`). -/
def msFromCivil (y : Int) (m d h mi : Nat) : Int :=
  (dayFromYear y + daysBeforeMonth (isLeapYear y) m + ((d : Int) - 1)) * msPerDay
    + (h : Int) * msPerHour + (mi : Int) * msPerMinute

/-! ### Data model

`RecurringDeadline` and `Conference` reproduce the record shapes that
`data/conferences.ts` exports and `src/app/page.tsx` consumes; the
field list is the one the page component reads, per the spec's data
model. -/

/-- An annually recurring deadline: month, day, hour, minute, a fixed
UTC offset in minutes, a display label and an `estimated` flag.  No
year is stored; the year is resolved against the pivot instant. -/
structure RecurringDeadline where
  month : Nat
  day : Nat
  hour : Nat
  minute : Nat
  offset : Int
  label : String
  estimated : Bool
  deriving DecidableEq

/-- A catalog entry. -/
structure Conference where
  id : String
  acronym : String
  name : String
  area : Option String
  deadline : Option RecurringDeadline
  isRolling : Bool
  location : Option String
  locationUrl : Option String
  note : Option String
  website : String
  submissionLink : Option String
  deriving DecidableEq

inductive SortKey where
  | default
  | area
  | acronym
  | deadline
  | countdown
  | location
  deriving DecidableEq

inductive SortDirection where
  | asc
  | desc
  deriving DecidableEq

structure SortState where
  key : SortKey
  direction : SortDirection
  deriving DecidableEq

/-! ### Recurrence resolver and countdown formatter (`page.tsx` lines 56-90) -/

/-- `buildDate` inside `getNextOccurrence`: the instant denoted by
`` `${year}-${pad(month)}-${pad(day)}T${pad(hour)}:${pad(minute)}:00${offset}` ``. -/
def buildDate (dl : RecurringDeadline) (year : Int) : Int :=
  msFromCivil year dl.month dl.day dl.hour dl.minute - dl.offset * msPerMinute

/-- `getNextOccurrence(deadline, pivot)`: the deadline's instant in the
pivot's UTC year, rolled to the next year when it is at or before the
pivot. -/
def getNextOccurrence (dl : RecurringDeadline) (pivot : Int) : Int :=
  let baseYear := getUTCFullYear pivot
  let candidate := buildDate dl baseYear
  if candidate ≤ pivot then buildDate dl (baseYear + 1)
  else candidate

/-- `formatCountdown(target, now)`.  String interpolation is expanded to
explicit concatenation of the decimal renderings. -/
def formatCountdown (target now : Int) : String :=
  let diff := target - now
  if diff ≤ 0 then "Closed"
  else
    let totalSeconds := (diff / 1000).toNat
    let days := totalSeconds / (24 * 60 * 60)
    let hours := totalSeconds % (24 * 60 * 60) / (60 * 60)
    let minutes := totalSeconds % (60 * 60) / 60
    let seconds := totalSeconds % 60
    if days > 0 then
      toString days ++ "d " ++ toString hours ++ "h " ++ toString minutes ++ "m"
    else if hours > 0 then
      toString hours ++ "h " ++ toString minutes ++ "m " ++ toString seconds ++ "s"
    else
      toString minutes ++ "m " ++ toString seconds ++ "s"

/-! ### Comparator engine (`page.tsx` lines 92-174 and 227-255)

`lc` stands for `String.prototype.localeCompare`; `areaOrder` is the
configured area sequence from `data/conferences.ts`. -/

def DEFAULT_AREA_ORDER : List String := ["Other Conferences"]

/-- Index of the last occurrence of `x` in `l`, if any.  The
`areaPriority` record in the source is built by a `reduce` that writes
`acc[area] = index` for each position, so a duplicated label keeps its
last index. -/
def lastIndexOf? : List String → String → Option Nat
  | [], _ => none
  | a :: l, x =>
    match lastIndexOf? l x with
    | some i => some (i + 1)
    | none => if a = x then some 0 else none

/-- `areaPriority[label]`: position of `label` in
`[...areaOrder, ...DEFAULT_AREA_ORDER]`. -/
def areaPriority (areaOrder : List String) (label : String) : Option Nat :=
  lastIndexOf? (areaOrder ++ DEFAULT_AREA_ORDER) label

/-- The `rank` helper inside `compareAreaLabels`: a missing label or a
label that is falsy (the empty string) or unknown ranks
`areaOrder.length + 1`. -/
def rankLabel (areaOrder : List String) (label : Option String) : Nat :=
  match label with
  | none => areaOrder.length + 1
  | some s =>
    if s = "" then areaOrder.length + 1
    else (areaPriority areaOrder s).getD (areaOrder.length + 1)

/-- `compareAreaLabels(a, b)`. -/
def compareAreaLabels (lc : String → String → Int) (areaOrder : List String)
    (a b : Option String) : Int :=
  let rankA := rankLabel areaOrder a
  let rankB := rankLabel areaOrder b
  if rankA ≠ rankB then (rankA : Int) - (rankB : Int)
  else lc (a.getD "") (b.getD "")

/-- `areaLabelFor(conf)`: the entry's area, defaulting to
`"Other Conferences"` when absent. -/
def areaLabelFor (c : Conference) : String :=
  c.area.getD "Other Conferences"

/-- JavaScript `x || y` on numbers: `y` exactly when `x` is `0`. -/
def jsOr (x y : Int) : Int :=
  if x = 0 then y else x

/-- The entry's usable deadline: `Boolean(deadline && !isRolling)`
guards every deadline access, so the usable deadline is the stored one
unless the entry is rolling. -/
def usableDeadline (c : Conference) : Option RecurringDeadline :=
  if c.isRolling then none else c.deadline

/-- `defaultCompare(a, b, now)`. -/
def defaultCompare (lc : String → String → Int) (a b : Conference) (now : Int) : Int :=
  match usableDeadline a, usableDeadline b with
  | some da, some db =>
    let nextA := getNextOccurrence da now
    let nextB := getNextOccurrence db now
    if nextA ≠ nextB then nextA - nextB
    else lc a.acronym b.acronym
  | some _, none => -1
  | none, some _ => 1
  | none, none => lc a.acronym b.acronym

/-- The resolved sort value used by the deadline/countdown keys:
`getNextOccurrence(...)` for a usable deadline, `+∞` (here `none`)
otherwise. -/
def deadlineSortValue (c : Conference) (now : Int) : Option Int :=
  match usableDeadline c with
  | some d => some (getNextOccurrence d now)
  | none => none

/-- `compareConferences(a, b, sort, now)`. -/
def compareConferences (lc : String → String → Int) (areaOrder : List String)
    (a b : Conference) (sort : SortState) (now : Int) : Int :=
  if sort.key = SortKey.default then defaultCompare lc a b now
  else
    let direction : Int := if sort.direction = SortDirection.asc then 1 else -1
    match sort.key with
    | .area =>
      let areaCompare :=
        compareAreaLabels lc areaOrder (some (areaLabelFor a)) (some (areaLabelFor b))
      if areaCompare ≠ 0 then direction * areaCompare
      else direction * lc a.acronym b.acronym
    | .acronym => direction * lc a.acronym b.acronym
    | .location =>
      let result :=
        jsOr (lc (a.location.getD "") (b.location.getD "")) (lc a.acronym b.acronym)
      direction * result
    | .deadline | .countdown =>
      match deadlineSortValue a now, deadlineSortValue b now with
      | some valueA, some valueB =>
        if valueA = valueB then direction * lc a.acronym b.acronym
        else direction * (if valueA < valueB then -1 else 1)
      | some _, none => direction * -1
      | none, some _ => direction * 1
      | none, none => direction * lc a.acronym b.acronym
    | _ => defaultCompare lc a b now

/-! ### View projector (`page.tsx` lines 227-235, 286-327)

JavaScript objects keep string keys in insertion order, so the
`grouped` record is modelled as an association list with unique keys,
grown by appending.  `Array.prototype.sort` is stable (ES2019), so it
is modelled by a stable insertion sort on the non-positive-comparator
relation: for a consistent comparator the stable result is unique, so
any stable sort is a faithful model. -/

/-- First-match lookup in the association list. -/
def lookupGroup : List (String × List Conference) → String → Option (List Conference)
  | [], _ => none
  | (k, v) :: rest, key => if k = key then some v else lookupGroup rest key

/-- `acc[key].push(conf)`, creating the key when absent (new keys go to
the end, matching object key insertion order). -/
def pushEntry : List (String × List Conference) → String → Conference →
    List (String × List Conference)
  | [], key, c => [(key, [c])]
  | (k, v) :: rest, key, c =>
    if k = key then (k, v ++ [c]) :: rest
    else (k, v) :: pushEntry rest key c

/-- The `grouped` memo: the catalog bucketed by resolved area label. -/
def grouped (catalog : List Conference) : List (String × List Conference) :=
  catalog.foldl (fun acc c => pushEntry acc (areaLabelFor c) c) []

/-- `Object.keys(grouped)`. -/
def groupKeys (g : List (String × List Conference)) : List String :=
  g.map Prod.fst

/-- `resolveAreaOrder(grouped)`: configured areas, then unreferenced
keys, then the default bucket, keeping only keys with a non-empty
group. -/
def resolveAreaOrder (areaOrder : List String)
    (g : List (String × List Conference)) : List String :=
  let extraAreas := (groupKeys g).filter (fun a => !(areaOrder.contains a))
  (areaOrder ++ extraAreas ++ DEFAULT_AREA_ORDER).filter
    (fun a =>
      match lookupGroup g a with
      | some l => !l.isEmpty
      | none => false)

/-- `[...entries].sort((a, b) => compareConferences(a, b, sort, now))`. -/
def sortConfs (lc : String → String → Int) (areaOrder : List String)
    (entries : List Conference) (sort : SortState) (now : Int) : List Conference :=
  List.insertionSort
    (fun a b => compareConferences lc areaOrder a b sort now ≤ 0) entries

/-- The `sortedByArea` memo: each resolved area key paired with its
sorted group. -/
def sortedByArea (lc : String → String → Int) (areaOrder : List String)
    (catalog : List Conference) (sort : SortState) (now : Int) :
    List (String × List Conference) :=
  let g := grouped catalog
  (resolveAreaOrder areaOrder g).map
    (fun a => (a, sortConfs lc areaOrder ((lookupGroup g a).getD []) sort now))

/-- The entries the sectioned view renders, in rendering order: the
concatenation of every rendered group. -/
def sectionedEntries (lc : String → String → Int) (areaOrder : List String)
    (catalog : List Conference) (sort : SortState) (now : Int) : List Conference :=
  ((sortedByArea lc areaOrder catalog sort now).map Prod.snd).flatten

/-- The dated entries feeding the `upcoming` memo:
`conferences.filter((conf) => conf.deadline && !conf.isRolling)` paired
with their resolved next occurrence. -/
def upcomingPool (catalog : List Conference) (now : Int) : List (Conference × Int) :=
  catalog.filterMap (fun c =>
    match usableDeadline c with
    | some d => some (c, getNextOccurrence d now)
    | none => none)

/-- The `upcoming` memo: the dated entries sorted by resolved instant,
truncated to the first 4. -/
def upcoming (catalog : List Conference) (now : Int) : List (Conference × Int) :=
  (List.insertionSort (fun x y : Conference × Int => x.2 ≤ y.2)
    (upcomingPool catalog now)).take 4

/-! ### Fallibility-aware model for the safety claim

JavaScript reports a malformed date string as `Invalid Date`, whose
`getTime()` is `NaN`; `NaN` then propagates through arithmetic, every
ordering comparison involving it is false, and `NaN !== NaN`.  The
checked variants return `none` exactly where the page would be holding
`NaN`, so `= some _` states that a comparison is crash- and NaN-free. -/

/-- Whether the deadline's fields denote a valid Date Time String Format
timestamp when resolved in year `y` (month and day in range for that
year, time fields in range, offset a legal `±HH:MM`). -/
def validInYear (dl : RecurringDeadline) (y : Int) : Bool :=
  1 ≤ dl.month && dl.month ≤ 12 && 1 ≤ dl.day &&
    (dl.day : Int) ≤ daysInMonth y dl.month &&
    dl.hour ≤ 23 && dl.minute ≤ 59 && -1439 ≤ dl.offset && dl.offset ≤ 1439

/-- Whether the deadline's fields are valid in every resolved year
(a February 29 deadline is not: it fails in non-leap years). -/
def validEveryYear (dl : RecurringDeadline) : Bool :=
  1 ≤ dl.month && dl.month ≤ 12 && 1 ≤ dl.day &&
    (dl.day : Int) ≤ daysInMonthMin dl.month &&
    dl.hour ≤ 23 && dl.minute ≤ 59 && -1439 ≤ dl.offset && dl.offset ≤ 1439

/-- A well-formed catalog entry: when a deadline descriptor is present
its fields always denote a valid timestamp. -/
def wellFormedEntry (c : Conference) : Bool :=
  match c.deadline with
  | some dl => validEveryYear dl
  | none => true

/-- `new Date(...).getTime()` with `NaN` as `none`. -/
def buildDateChecked (dl : RecurringDeadline) (year : Int) : Option Int :=
  if validInYear dl year then some (buildDate dl year) else none

/-- `getNextOccurrence` with `NaN` tracking: an invalid same-year
candidate makes `candidate.getTime() <= pivot.getTime()` false, so the
invalid candidate itself is returned. -/
def getNextOccurrenceChecked (dl : RecurringDeadline) (pivot : Int) : Option Int :=
  let baseYear := getUTCFullYear pivot
  match buildDateChecked dl baseYear with
  | none => none
  | some candidate =>
    if candidate ≤ pivot then buildDateChecked dl (baseYear + 1)
    else some candidate

/-- `deadlineSortValue` with `NaN` tracking.  `Number.isFinite` is false
for `NaN` and for `Infinity` alike and the two are only ever compared
for equality behind an `isFinite` guard, so both collapse to `none`. -/
def deadlineSortValueChecked (c : Conference) (now : Int) : Option Int :=
  match usableDeadline c with
  | some d => getNextOccurrenceChecked d now
  | none => none

/-- `defaultCompare` with `NaN` tracking: when both entries are dated,
`nextA.getTime() !== nextB.getTime()` is true as soon as either side is
`NaN` (since `NaN !== NaN`), and the subtraction then yields `NaN`. -/
def defaultCompareChecked (lc : String → String → Int) (a b : Conference)
    (now : Int) : Option Int :=
  match usableDeadline a, usableDeadline b with
  | some da, some db =>
    match getNextOccurrenceChecked da now, getNextOccurrenceChecked db now with
    | some nextA, some nextB =>
      if nextA ≠ nextB then some (nextA - nextB)
      else some (lc a.acronym b.acronym)
    | _, _ => none
  | some _, none => some (-1)
  | none, some _ => some 1
  | none, none => some (lc a.acronym b.acronym)

/-- `compareConferences` with `NaN` tracking. -/
def compareConferencesChecked (lc : String → String → Int) (areaOrder : List String)
    (a b : Conference) (sort : SortState) (now : Int) : Option Int :=
  if sort.key = SortKey.default then defaultCompareChecked lc a b now
  else
    let direction : Int := if sort.direction = SortDirection.asc then 1 else -1
    match sort.key with
    | .area =>
      let areaCompare :=
        compareAreaLabels lc areaOrder (some (areaLabelFor a)) (some (areaLabelFor b))
      if areaCompare ≠ 0 then some (direction * areaCompare)
      else some (direction * lc a.acronym b.acronym)
    | .acronym => some (direction * lc a.acronym b.acronym)
    | .location =>
      let result :=
        jsOr (lc (a.location.getD "") (b.location.getD "")) (lc a.acronym b.acronym)
      some (direction * result)
    | .deadline | .countdown =>
      match deadlineSortValueChecked a now, deadlineSortValueChecked b now with
      | some valueA, some valueB =>
        if valueA = valueB then some (direction * lc a.acronym b.acronym)
        else some (direction * (if valueA < valueB then -1 else 1))
      | some _, none => some (direction * -1)
      | none, some _ => some (direction * 1)
      | none, none => some (direction * lc a.acronym b.acronym)
    | _ => defaultCompareChecked lc a b now

/-! ### Comparator decomposition helpers

Every non-default arm of `compareConferences` returns
`direction * v` for a direction-independent value `v`; these helpers
name those values so each arm can be analysed once.  They are proven
equal to the corresponding arms below. -/

/-- The numeric direction factor. -/
def dirInt (d : SortDirection) : Int :=
  if d = SortDirection.asc then 1 else -1

/-- The direction-independent part of the deadline/countdown arm. -/
def deadlineKeyCompare (lc : String → String → Int) (a b : Conference)
    (now : Int) : Int :=
  match deadlineSortValue a now, deadlineSortValue b now with
  | some valueA, some valueB =>
    if valueA = valueB then lc a.acronym b.acronym
    else if valueA < valueB then -1 else 1
  | some _, none => -1
  | none, some _ => 1
  | none, none => lc a.acronym b.acronym

/-- The direction-independent part of the area arm. -/
def areaKeyCompare (lc : String → String → Int) (areaOrder : List String)
    (a b : Conference) : Int :=
  if compareAreaLabels lc areaOrder (some (areaLabelFor a)) (some (areaLabelFor b)) ≠ 0
  then compareAreaLabels lc areaOrder (some (areaLabelFor a)) (some (areaLabelFor b))
  else lc a.acronym b.acronym

/-! ### Sample data for concrete evaluations -/

/-- A degenerate collation that deems all strings equal; it satisfies
the sign-antisymmetry any real collation has. -/
def lcZero : String → String → Int := fun _ _ => 0

/-- Code-point-wise lexicographic comparison of character lists. -/
def lcData : List Char → List Char → Int
  | [], [] => 0
  | [], _ :: _ => -1
  | _ :: _, [] => 1
  | c :: cs, d :: ds =>
    if c.toNat < d.toNat then -1
    else if d.toNat < c.toNat then 1
    else lcData cs ds

/-- A concrete non-degenerate collation: code-point order, used where a
collation separating particular strings is convenient. -/
def lcBytes (a b : String) : Int := lcData a.data b.data

/-- An Anywhere-on-Earth style deadline: March 1, 23:59, UTC-12:00. -/
def aoeDeadline : RecurringDeadline :=
  { month := 3, day := 1, hour := 23, minute := 59, offset := -720,
    label := "Mar 1", estimated := false }

/-- A deadline in the UTC+14:00 offset: January 1, 00:00. -/
def plusFourteenDeadline : RecurringDeadline :=
  { month := 1, day := 1, hour := 0, minute := 0, offset := 840,
    label := "Jan 1", estimated := false }

/-- Minimal catalog entry builder for concrete instances. -/
def mkEntry (acr : String) (area : Option String) (dl : Option RecurringDeadline)
    (rolling : Bool) : Conference :=
  { id := acr, acronym := acr, name := acr, area := area, deadline := dl,
    isRolling := rolling, location := none, locationUrl := none, note := none,
    website := "", submissionLink := none }

/-- 2025-12-31T12:00:00Z, a pivot near the end of its UTC year. -/
def pivotLateDec : Int := msFromCivil 2025 12 31 12 0

/-- The AoE deadline moved to day `d` of March. -/
def marchDeadline (d : Nat) : RecurringDeadline :=
  { aoeDeadline with day := d }

/-- Five dated entries, listed out of date order. -/
def sampleCatalog : List Conference :=
  [mkEntry "CA" none (some (marchDeadline 5)) false,
    mkEntry "CB" none (some (marchDeadline 1)) false,
    mkEntry "CC" none (some (marchDeadline 2)) false,
    mkEntry "CD" none (some (marchDeadline 3)) false,
    mkEntry "CE" none (some (marchDeadline 4)) false]

/-! ### Calendar lemmas -/

/-- `yearFromDay` picks the year whose January 1 is the last one at or
before the given day number. -/
theorem yearFromDay_spec (d : Int) :
    dayFromYear (yearFromDay d) ≤ d ∧ d < dayFromYear (yearFromDay d + 1) := by
  simp only [yearFromDay]
  set a := 1970 + (400 * d) / 146097 with ha
  split_ifs with h1 h2
  · refine ⟨h1, ?_⟩
    unfold dayFromYear at *
    omega
  · refine ⟨h2, ?_⟩
    unfold dayFromYear at *
    omega
  · rw [show a - 1 + 1 = a by ring]
    refine ⟨?_, by omega⟩
    unfold dayFromYear at *
    omega

/-- Any instant is strictly before January 1 of the year after its UTC
year. -/
theorem lt_next_year_start (t : Int) :
    t < msPerDay * dayFromYear (getUTCFullYear t + 1) := by
  have h := (yearFromDay_spec (t / msPerDay)).2
  simp only [getUTCFullYear, msPerDay] at *
  omega

theorem daysBeforeMonth_nonneg (leap : Bool) (m : Nat) (h1 : 1 ≤ m) (h2 : m ≤ 12) :
    0 ≤ daysBeforeMonth leap m := by
  interval_cases m <;> cases leap <;> decide

/-- Splitting a `validInYear` check into its component bounds. -/
theorem validInYear_iff (dl : RecurringDeadline) (y : Int) :
    validInYear dl y = true ↔
      1 ≤ dl.month ∧ dl.month ≤ 12 ∧ 1 ≤ dl.day ∧
        (dl.day : Int) ≤ daysInMonth y dl.month ∧
        dl.hour ≤ 23 ∧ dl.minute ≤ 59 ∧ -1439 ≤ dl.offset ∧ dl.offset ≤ 1439 := by
  simp [validInYear, Bool.and_eq_true, decide_eq_true_eq, and_assoc]

/-- Fields valid in every year are valid in each particular year. -/
theorem validInYear_of_every (dl : RecurringDeadline) (y : Int)
    (h : validEveryYear dl = true) : validInYear dl y = true := by
  simp only [validEveryYear, Bool.and_eq_true, decide_eq_true_eq] at h
  rw [validInYear_iff]
  obtain ⟨⟨⟨⟨⟨⟨⟨h1, h2⟩, h3⟩, h4⟩, h5⟩, h6⟩, h7⟩, h8⟩ := h
  refine ⟨h1, h2, h3, ?_, h5, h6, h7, h8⟩
  have : daysInMonthMin dl.month ≤ daysInMonth y dl.month := by
    interval_cases h : dl.month <;>
      simp [daysInMonth, daysInMonthMin] <;> split <;> omega
  omega

/-- With a non-positive offset and in-range fields, the instant a
deadline denotes in year `y` is not before January 1 of year `y`. -/
theorem buildDate_ge (dl : RecurringDeadline) (y : Int)
    (hv : validInYear dl y = true) (hoff : dl.offset ≤ 0) :
    msPerDay * dayFromYear y ≤ buildDate dl y := by
  rw [validInYear_iff] at hv
  obtain ⟨h1, h2, h3, _, _, _, _, _⟩ := hv
  have hb := daysBeforeMonth_nonneg (isLeapYear y) dl.month h1 h2
  simp only [buildDate, msFromCivil, msPerDay, msPerHour, msPerMinute] at *
  have hd : (1 : Int) ≤ (dl.day : Int) := by exact_mod_cast h3
  have hh : (0 : Int) ≤ (dl.hour : Int) := Int.natCast_nonneg _
  have hm : (0 : Int) ≤ (dl.minute : Int) := Int.natCast_nonneg _
  nlinarith [hb, hd, hh, hm, hoff]

/-- Core of the recurrence claim: with a non-positive UTC offset and
fields valid in the rollover year, `getNextOccurrence` is strictly
after the pivot. -/
theorem getNextOccurrence_gt (dl : RecurringDeadline) (P : Int)
    (hv : validInYear dl (getUTCFullYear P + 1) = true)
    (hoff : dl.offset ≤ 0) :
    P < getNextOccurrence dl P := by
  simp only [getNextOccurrence]
  split
  · calc P < msPerDay * dayFromYear (getUTCFullYear P + 1) := lt_next_year_start P
      _ ≤ buildDate dl (getUTCFullYear P + 1) := buildDate_ge dl _ hv hoff
  · omega

/-- `getNextOccurrence` returns the same-year instant exactly when that
instant is strictly after the pivot, and the next-year instant
otherwise. -/
theorem getNextOccurrence_eq (dl : RecurringDeadline) (P : Int) :
    getNextOccurrence dl P =
      if P < buildDate dl (getUTCFullYear P) then buildDate dl (getUTCFullYear P)
      else buildDate dl (getUTCFullYear P + 1) := by
  simp only [getNextOccurrence]
  split_ifs with h1 h2 <;> omega

/-! ### Countdown formatter lemmas -/

/-- Every rendered countdown contains a space, so it is never the
terminal token. -/
theorem ne_closed_of_space (s : String) (h : ' ' ∈ s.data) : s ≠ "Closed" := by
  intro he
  rw [he] at h
  exact absurd h (by decide)

/-- `formatCountdown` yields `"Closed"` exactly on non-future targets. -/
theorem formatCountdown_closed_iff (target now : Int) :
    formatCountdown target now = "Closed" ↔ target ≤ now := by
  simp only [formatCountdown]
  split_ifs with h0 h1 h2
  · constructor
    · intro _; omega
    · intro _; rfl
  · refine ⟨fun he => ?_, fun hle => absurd hle (by omega)⟩
    refine absurd he (ne_closed_of_space _ ?_)
    simp [String.data_append, List.mem_append]
  · refine ⟨fun he => ?_, fun hle => absurd hle (by omega)⟩
    refine absurd he (ne_closed_of_space _ ?_)
    simp [String.data_append, List.mem_append]
  · refine ⟨fun he => ?_, fun hle => absurd hle (by omega)⟩
    refine absurd he (ne_closed_of_space _ ?_)
    simp [String.data_append, List.mem_append]

/-! ### Comparator rank lemmas -/

theorem lastIndexOf?_of_not_mem (l : List String) (x : String) (h : x ∉ l) :
    lastIndexOf? l x = none := by
  induction l with
  | nil => rfl
  | cons a l ih =>
    simp only [List.mem_cons, not_or] at h
    simp [lastIndexOf?, ih h.2, if_neg (Ne.symm h.1)]

theorem lastIndexOf?_of_mem (l : List String) (x : String) (h : x ∈ l) :
    ∃ i, lastIndexOf? l x = some i ∧ i < l.length := by
  induction l with
  | nil => simp at h
  | cons a l ih =>
    by_cases hm : x ∈ l
    · obtain ⟨i, hi, hlt⟩ := ih hm
      exact ⟨i + 1, by simp [lastIndexOf?, hi], by simp; omega⟩
    · have hax : a = x := by
        rcases List.mem_cons.mp h with h | h
        · exact h.symm
        · exact absurd h hm
      exact ⟨0, by simp [lastIndexOf?, lastIndexOf?_of_not_mem l x hm, hax], by simp⟩

theorem lastIndexOf?_append (l₁ l₂ : List String) (x : String) :
    lastIndexOf? (l₁ ++ l₂) x =
      match lastIndexOf? l₂ x with
      | some j => some (l₁.length + j)
      | none => lastIndexOf? l₁ x := by
  induction l₁ with
  | nil => cases h : lastIndexOf? l₂ x <;> simp [h, lastIndexOf?]
  | cons a l ih =>
    cases h : lastIndexOf? l₂ x
    · simp only [List.cons_append, lastIndexOf?, List.append_eq, ih, h]
    · simp only [List.cons_append, lastIndexOf?, List.append_eq, ih, h,
        List.length_cons]
      congr 1
      omega

/-- The default bucket label always ranks exactly `areaOrder.length`:
the appended `DEFAULT_AREA_ORDER` copy is the last occurrence. -/
theorem rankLabel_other (areaOrder : List String) :
    rankLabel areaOrder (some "Other Conferences") = areaOrder.length := by
  simp only [rankLabel, areaPriority, DEFAULT_AREA_ORDER,
    if_neg (by decide : ¬("Other Conferences" = ""))]
  rw [lastIndexOf?_append]
  simp [lastIndexOf?]

/-- A label listed in `areaOrder` (and distinct from the empty string
and the default bucket label) ranks strictly below `areaOrder.length`. -/
theorem rankLabel_listed (areaOrder : List String) (x : String) (hx : x ∈ areaOrder)
    (h1 : x ≠ "") (h2 : x ≠ "Other Conferences") :
    rankLabel areaOrder (some x) < areaOrder.length := by
  obtain ⟨i, hi, hlt⟩ := lastIndexOf?_of_mem areaOrder x hx
  simp only [rankLabel, areaPriority, DEFAULT_AREA_ORDER, if_neg h1]
  rw [lastIndexOf?_append,
    lastIndexOf?_of_not_mem ["Other Conferences"] x (by simpa using h2)]
  simpa [hi] using hlt

/-- A label not listed in `areaOrder` ranks at least `areaOrder.length`. -/
theorem rankLabel_unlisted (areaOrder : List String) (y : String)
    (hy : y ∉ areaOrder) : areaOrder.length ≤ rankLabel areaOrder (some y) := by
  by_cases h1 : y = ""
  · simp [rankLabel, h1]
  · by_cases h2 : y = "Other Conferences"
    · rw [h2, rankLabel_other]
    · simp only [rankLabel, areaPriority, DEFAULT_AREA_ORDER, if_neg h1]
      rw [lastIndexOf?_append,
        lastIndexOf?_of_not_mem ["Other Conferences"] y (by simpa using h2),
        lastIndexOf?_of_not_mem areaOrder y hy]
      simp

/-! ### Comparator shape lemmas -/

theorem compareConferences_default (lc : String → String → Int)
    (areaOrder : List String) (a b : Conference) (d : SortDirection) (now : Int) :
    compareConferences lc areaOrder a b ⟨.default, d⟩ now =
      defaultCompare lc a b now := by
  simp [compareConferences]

theorem compareConferences_area_eq (lc : String → String → Int)
    (areaOrder : List String) (a b : Conference) (d : SortDirection) (now : Int) :
    compareConferences lc areaOrder a b ⟨.area, d⟩ now =
      dirInt d * areaKeyCompare lc areaOrder a b := by
  simp only [compareConferences, areaKeyCompare, dirInt]
  rw [if_neg (by decide)]
  split_ifs <;> rfl

theorem compareConferences_acronym_eq (lc : String → String → Int)
    (areaOrder : List String) (a b : Conference) (d : SortDirection) (now : Int) :
    compareConferences lc areaOrder a b ⟨.acronym, d⟩ now =
      dirInt d * lc a.acronym b.acronym := by
  simp only [compareConferences, dirInt]
  rw [if_neg (by decide)]

theorem compareConferences_location_eq (lc : String → String → Int)
    (areaOrder : List String) (a b : Conference) (d : SortDirection) (now : Int) :
    compareConferences lc areaOrder a b ⟨.location, d⟩ now =
      dirInt d * jsOr (lc (a.location.getD "") (b.location.getD ""))
        (lc a.acronym b.acronym) := by
  simp only [compareConferences, dirInt]
  rw [if_neg (by decide)]

theorem compareConferences_deadlineKey_eq (lc : String → String → Int)
    (areaOrder : List String) (a b : Conference) (k : SortKey)
    (hk : k = SortKey.deadline ∨ k = SortKey.countdown) (d : SortDirection)
    (now : Int) :
    compareConferences lc areaOrder a b ⟨k, d⟩ now =
      dirInt d * deadlineKeyCompare lc a b now := by
  rcases hk with hk | hk <;> subst hk <;>
  · simp only [compareConferences, deadlineKeyCompare, dirInt]
    rw [if_neg (by decide)]
    rcases deadlineSortValue a now with _ | va <;>
      rcases deadlineSortValue b now with _ | vb <;> simp

/-! ### Claim C1 — deadline/countdown sort and direction -/

/-- C1 (as stated, refuted): under the deadline key in descending
direction, a dated entry compares greater than a rolling entry, so
toggling the direction does move the unresolvable entry ahead of the
resolvable one. -/
theorem claimC1_counterexample :
    (mkEntry "AAA" none (some aoeDeadline) false).isRolling = false ∧
    (mkEntry "AAA" none (some aoeDeadline) false).deadline = some aoeDeadline ∧
    (mkEntry "BBB" none none true).isRolling = true ∧
    0 < compareConferences lcZero [] (mkEntry "AAA" none (some aoeDeadline) false)
      (mkEntry "BBB" none none true) ⟨.deadline, .desc⟩ 0 := by
  decide

/-- C1 (amended): under the deadline and countdown keys, an entry with
a resolvable next occurrence sorts before an unresolvable (rolling or
deadline-less) entry in ascending direction, and after it in
descending direction: the resolvable-first rule holds only for the
ascending direction and is reversed by the toggle. -/
theorem claimC1_deadlineKeyPartition (lc : String → String → Int)
    (areaOrder : List String) (a b : Conference) (now : Int) (k : SortKey)
    (da : RecurringDeadline)
    (hk : k = SortKey.deadline ∨ k = SortKey.countdown)
    (ha1 : a.isRolling = false) (ha2 : a.deadline = some da)
    (hb : b.isRolling = true ∨ b.deadline = none) :
    compareConferences lc areaOrder a b ⟨k, .asc⟩ now < 0 ∧
    0 < compareConferences lc areaOrder a b ⟨k, .desc⟩ now := by
  have hva : deadlineSortValue a now = some (getNextOccurrence da now) := by
    simp [deadlineSortValue, usableDeadline, ha1, ha2]
  have hvb : deadlineSortValue b now = none := by
    rcases hb with hb | hb <;> simp [deadlineSortValue, usableDeadline, hb]
  have hv : deadlineKeyCompare lc a b now = -1 := by
    simp [deadlineKeyCompare, hva, hvb]
  rw [compareConferences_deadlineKey_eq lc areaOrder a b k hk .asc now,
    compareConferences_deadlineKey_eq lc areaOrder a b k hk .desc now, hv]
  decide

/-- Concrete instantiation of the amended C1. -/
theorem claimC1_witness :
    (mkEntry "AAA" none (some aoeDeadline) false).isRolling = false ∧
    (mkEntry "BBB" none none true).isRolling = true ∧
    (compareConferences lcZero [] (mkEntry "AAA" none (some aoeDeadline) false)
        (mkEntry "BBB" none none true) ⟨.deadline, .asc⟩ 0 < 0 ∧
      0 < compareConferences lcZero [] (mkEntry "AAA" none (some aoeDeadline) false)
        (mkEntry "BBB" none none true) ⟨.deadline, .desc⟩ 0) :=
  ⟨by decide, by decide,
    claimC1_deadlineKeyPartition lcZero [] _ _ 0 .deadline aoeDeadline
      (Or.inl rfl) (by decide) (by decide) (Or.inl (by decide))⟩

/-! ### Claim C5 — area sort and direction -/

/-- C5 (as stated, refuted): under the area key in descending
direction, an entry with the listed area `"AI"` compares greater than
an entry with no area, so the unlisted entry is moved ahead when the
direction toggles. -/
theorem claimC5_counterexample :
    ("AI" ∈ (["AI"] : List String)) ∧
    (mkEntry "BBB" none none false).area = none ∧
    0 < compareConferences lcZero ["AI"] (mkEntry "AAA" (some "AI") none false)
      (mkEntry "BBB" none none false) ⟨.area, .desc⟩ 0 := by
  decide

/-- C5 (amended): under the area key, an entry whose area is listed in
`areaOrder` (and is neither empty nor the default bucket label) sorts
before an entry whose area is absent or unlisted in ascending
direction, and after it in descending direction: listed-before-unlisted
holds only for the ascending direction. -/
theorem claimC5_areaKeyPartition (lc : String → String → Int)
    (areaOrder : List String) (a b : Conference) (now : Int) (x : String)
    (hax : a.area = some x) (hx : x ∈ areaOrder) (hx1 : x ≠ "")
    (hx2 : x ≠ "Other Conferences")
    (hb : b.area = none ∨ ∃ y, b.area = some y ∧ y ∉ areaOrder) :
    compareConferences lc areaOrder a b ⟨.area, .asc⟩ now < 0 ∧
    0 < compareConferences lc areaOrder a b ⟨.area, .desc⟩ now := by
  have hra : rankLabel areaOrder (some (areaLabelFor a)) < areaOrder.length := by
    rw [show areaLabelFor a = x by simp [areaLabelFor, hax]]
    exact rankLabel_listed areaOrder x hx hx1 hx2
  have hrb : areaOrder.length ≤ rankLabel areaOrder (some (areaLabelFor b)) := by
    rcases hb with hb | ⟨y, hby, hy⟩
    · rw [show areaLabelFor b = "Other Conferences" by simp [areaLabelFor, hb]]
      rw [rankLabel_other]
    · rw [show areaLabelFor b = y by simp [areaLabelFor, hby]]
      exact rankLabel_unlisted areaOrder y hy
  have hne : compareAreaLabels lc areaOrder (some (areaLabelFor a))
      (some (areaLabelFor b)) < 0 := by
    simp only [compareAreaLabels]
    rw [if_pos (by omega)]
    omega
  have hv : areaKeyCompare lc areaOrder a b < 0 := by
    simp only [areaKeyCompare]
    rw [if_pos (by omega)]
    exact hne
  rw [compareConferences_area_eq lc areaOrder a b .asc now,
    compareConferences_area_eq lc areaOrder a b .desc now,
    show dirInt .asc = 1 from rfl, show dirInt .desc = -1 from rfl]
  constructor <;> omega

/-- Concrete instantiation of the amended C5. -/
theorem claimC5_witness :
    ("AI" ∈ (["AI"] : List String)) ∧
    (compareConferences lcZero ["AI"] (mkEntry "AAA" (some "AI") none false)
        (mkEntry "BBB" none none false) ⟨.area, .asc⟩ 0 < 0 ∧
      0 < compareConferences lcZero ["AI"] (mkEntry "AAA" (some "AI") none false)
        (mkEntry "BBB" none none false) ⟨.area, .desc⟩ 0) :=
  ⟨by decide,
    claimC5_areaKeyPartition lcZero ["AI"] _ _ 0 "AI" (by decide) (by decide)
      (by decide) (by decide) (Or.inl (by decide))⟩

/-! ### Claim C4 — default ordering -/

theorem defaultCompare_dated (lc : String → String → Int) (a b : Conference)
    (now : Int) (da db : RecurringDeadline)
    (ha : usableDeadline a = some da) (hb : usableDeadline b = some db) :
    defaultCompare lc a b now =
      if getNextOccurrence da now ≠ getNextOccurrence db now then
        getNextOccurrence da now - getNextOccurrence db now
      else lc a.acronym b.acronym := by
  simp [defaultCompare, ha, hb]

/-- C4: under the default key, two dated entries are ordered by their
resolved next-occurrence instants with acronym tie-break, every dated
entry sorts before every undated entry regardless of acronym, two
undated entries fall back to the acronym comparison, the key ignores
the direction entirely, and it is the only key exempt from the
direction toggle (for a collation separating `"A"` from `"B"`). -/
theorem claimC4_defaultOrdering (lc : String → String → Int)
    (areaOrder : List String) (now : Int) (hAB : lc "A" "B" ≠ 0) :
    (∀ (d : SortDirection) (a b : Conference) (da db : RecurringDeadline),
      usableDeadline a = some da → usableDeadline b = some db →
        (getNextOccurrence da now < getNextOccurrence db now →
          compareConferences lc areaOrder a b ⟨.default, d⟩ now < 0) ∧
        (getNextOccurrence db now < getNextOccurrence da now →
          0 < compareConferences lc areaOrder a b ⟨.default, d⟩ now) ∧
        (getNextOccurrence da now = getNextOccurrence db now →
          compareConferences lc areaOrder a b ⟨.default, d⟩ now =
            lc a.acronym b.acronym)) ∧
    (∀ (d : SortDirection) (a b : Conference) (da : RecurringDeadline),
      usableDeadline a = some da → usableDeadline b = none →
        compareConferences lc areaOrder a b ⟨.default, d⟩ now = -1) ∧
    (∀ (d : SortDirection) (a b : Conference),
      usableDeadline a = none → usableDeadline b = none →
        compareConferences lc areaOrder a b ⟨.default, d⟩ now =
          lc a.acronym b.acronym) ∧
    (∀ (a b : Conference) (d₁ d₂ : SortDirection),
      compareConferences lc areaOrder a b ⟨.default, d₁⟩ now =
        compareConferences lc areaOrder a b ⟨.default, d₂⟩ now) ∧
    (∀ k : SortKey, k ≠ .default →
      ∃ a b : Conference,
        compareConferences lc areaOrder a b ⟨k, .asc⟩ now ≠
          compareConferences lc areaOrder a b ⟨k, .desc⟩ now) := by
  have hdir : ∀ v : Int, v ≠ 0 → dirInt .asc * v ≠ dirInt .desc * v := by
    intro v hv
    rw [show dirInt .asc = 1 from rfl, show dirInt .desc = -1 from rfl]
    omega
  refine ⟨?_, ?_, ?_, ?_, ?_⟩
  · intro d a b da db ha hb
    rw [compareConferences_default, defaultCompare_dated lc a b now da db ha hb]
    refine ⟨fun h => ?_, fun h => ?_, fun h => ?_⟩
    · rw [if_pos (by omega)]; omega
    · rw [if_pos (by omega)]; omega
    · rw [if_neg (by omega)]
  · intro d a b da ha hb
    rw [compareConferences_default]
    simp [defaultCompare, ha, hb]
  · intro d a b ha hb
    rw [compareConferences_default]
    simp [defaultCompare, ha, hb]
  · intro a b d₁ d₂
    rw [compareConferences_default, compareConferences_default]
  · intro k hk
    cases k
    · exact absurd rfl hk
    · refine ⟨mkEntry "A" (some "A") none false, mkEntry "B" (some "B") none false, ?_⟩
      rw [compareConferences_area_eq, compareConferences_area_eq]
      refine hdir _ ?_
      simp only [areaKeyCompare]
      split_ifs with h
      · exact h
      · exact hAB
    · refine ⟨mkEntry "A" none none false, mkEntry "B" none none false, ?_⟩
      rw [compareConferences_acronym_eq, compareConferences_acronym_eq]
      exact hdir _ hAB
    · refine ⟨mkEntry "A" none (some aoeDeadline) false, mkEntry "B" none none true, ?_⟩
      rw [compareConferences_deadlineKey_eq lc areaOrder _ _ _ (Or.inl rfl),
        compareConferences_deadlineKey_eq lc areaOrder _ _ _ (Or.inl rfl)]
      refine hdir _ ?_
      simp [deadlineKeyCompare, deadlineSortValue, usableDeadline, mkEntry]
    · refine ⟨mkEntry "A" none (some aoeDeadline) false, mkEntry "B" none none true, ?_⟩
      rw [compareConferences_deadlineKey_eq lc areaOrder _ _ _ (Or.inr rfl),
        compareConferences_deadlineKey_eq lc areaOrder _ _ _ (Or.inr rfl)]
      refine hdir _ ?_
      simp [deadlineKeyCompare, deadlineSortValue, usableDeadline, mkEntry]
    · refine ⟨{ mkEntry "A" none none false with location := some "A" },
        { mkEntry "B" none none false with location := some "B" }, ?_⟩
      rw [compareConferences_location_eq, compareConferences_location_eq]
      refine hdir _ ?_
      simp only [mkEntry, jsOr]
      split_ifs with h
      · exact hAB
      · exact h

theorem claimC4_witness :
    lcBytes "A" "B" ≠ 0 ∧
    usableDeadline (mkEntry "X" none none true) = none ∧
    usableDeadline (mkEntry "Y" none none false) = none ∧
    compareConferences lcBytes [] (mkEntry "X" none none true)
        (mkEntry "Y" none none false) ⟨.default, .asc⟩ 0 =
      lcBytes (mkEntry "X" none none true).acronym
        (mkEntry "Y" none none false).acronym :=
  ⟨by decide, by decide, by decide,
    (claimC4_defaultOrdering lcBytes [] 0 (by decide)).2.2.1 .asc
      (mkEntry "X" none none true) (mkEntry "Y" none none false)
      (by decide) (by decide)⟩

/-! ### Claim C9 — comparator antisymmetry -/

theorem sign_swap_sub (x y : Int) : (y - x).sign = -(x - y).sign := by
  rw [← neg_sub x y, Int.sign_neg]

/-- Sign-antisymmetry of a collation, as every real collation and the
samples here satisfy. -/
def LcAntisymm (lc : String → String → Int) : Prop :=
  ∀ x y, (lc y x).sign = -(lc x y).sign

/-- For sign-antisymmetric values, one side vanishes exactly when the
other does. -/
theorem sign_antisymm_zero_iff {x y : Int} (h : y.sign = -x.sign) :
    x = 0 ↔ y = 0 := by
  constructor <;> intro hz
  · apply Int.sign_eq_zero_iff_zero.mp
    rw [h, hz]
    simp
  · rw [hz] at h
    simp only [Int.sign_zero] at h
    apply Int.sign_eq_zero_iff_zero.mp
    omega

theorem defaultCompare_antisymm (lc : String → String → Int) (a b : Conference)
    (now : Int) (hlc : LcAntisymm lc) :
    (defaultCompare lc b a now).sign = -(defaultCompare lc a b now).sign := by
  rcases ha : usableDeadline a with _ | da <;>
    rcases hb : usableDeadline b with _ | db <;>
    simp only [defaultCompare, ha, hb]
  · exact hlc _ _
  · decide
  · decide
  · split_ifs <;>
      first
        | exact sign_swap_sub _ _
        | exact hlc _ _
        | (exfalso; omega)

theorem compareAreaLabels_antisymm (lc : String → String → Int)
    (areaOrder : List String) (x y : Option String) (hlc : LcAntisymm lc) :
    (compareAreaLabels lc areaOrder y x).sign =
      -(compareAreaLabels lc areaOrder x y).sign := by
  simp only [compareAreaLabels]
  split_ifs
  · rw [show ((rankLabel areaOrder y : Int) - (rankLabel areaOrder x : Int)) =
        -((rankLabel areaOrder x : Int) - (rankLabel areaOrder y : Int)) by ring,
      Int.sign_neg]
  · exfalso; omega
  · exfalso; omega
  · exact hlc _ _

theorem areaKeyCompare_antisymm (lc : String → String → Int)
    (areaOrder : List String) (a b : Conference) (hlc : LcAntisymm lc) :
    (areaKeyCompare lc areaOrder b a).sign = -(areaKeyCompare lc areaOrder a b).sign := by
  have hs := compareAreaLabels_antisymm lc areaOrder (some (areaLabelFor a))
    (some (areaLabelFor b)) hlc
  have hz := sign_antisymm_zero_iff hs
  unfold areaKeyCompare
  split_ifs with h1 h2 h2
  · exact hs
  · exact absurd (hz.mp (not_not.mp h2)) h1
  · exact absurd (hz.mpr (not_not.mp h1)) h2
  · exact hlc _ _

theorem jsOr_antisymm (x y x' y' : Int) (hx : x'.sign = -x.sign)
    (hy : y'.sign = -y.sign) : (jsOr x' y').sign = -(jsOr x y).sign := by
  have hz := sign_antisymm_zero_iff hx
  unfold jsOr
  split_ifs with h1 h2 h2
  · exact hy
  · exact absurd (hz.mpr h1) h2
  · exact absurd (hz.mp h2) h1
  · exact hx

theorem deadlineKeyCompare_antisymm (lc : String → String → Int)
    (a b : Conference) (now : Int) (hlc : LcAntisymm lc) :
    (deadlineKeyCompare lc b a now).sign = -(deadlineKeyCompare lc a b now).sign := by
  rcases ha : deadlineSortValue a now with _ | va <;>
    rcases hb : deadlineSortValue b now with _ | vb <;>
    simp only [deadlineKeyCompare, ha, hb]
  · exact hlc _ _
  · decide
  · decide
  · split_ifs <;>
      first
        | exact hlc _ _
        | decide
        | (exfalso; omega)

/-- C9: for every sort key and direction, swapping the two entries
flips the sign of `compareConferences` (given a sign-antisymmetric
collation): the comparator never reports both orders, so the verdicts
are opposite or both zero. -/
theorem claimC9_antisymmetry (lc : String → String → Int)
    (areaOrder : List String) (sort : SortState) (now : Int)
    (a b : Conference) (hlc : LcAntisymm lc) :
    (compareConferences lc areaOrder b a sort now).sign =
      -(compareConferences lc areaOrder a b sort now).sign := by
  obtain ⟨k, d⟩ := sort
  have hd : ∀ v w : Int, v.sign = -w.sign →
      (dirInt d * v).sign = -(dirInt d * w).sign := by
    intro v w h
    rw [Int.sign_mul, Int.sign_mul, h]
    ring
  cases k
  · rw [compareConferences_default, compareConferences_default]
    exact defaultCompare_antisymm lc a b now hlc
  · rw [compareConferences_area_eq, compareConferences_area_eq]
    exact hd _ _ (areaKeyCompare_antisymm lc areaOrder a b hlc)
  · rw [compareConferences_acronym_eq, compareConferences_acronym_eq]
    exact hd _ _ (hlc _ _)
  · rw [compareConferences_deadlineKey_eq lc areaOrder b a _ (Or.inl rfl),
      compareConferences_deadlineKey_eq lc areaOrder a b _ (Or.inl rfl)]
    exact hd _ _ (deadlineKeyCompare_antisymm lc a b now hlc)
  · rw [compareConferences_deadlineKey_eq lc areaOrder b a _ (Or.inr rfl),
      compareConferences_deadlineKey_eq lc areaOrder a b _ (Or.inr rfl)]
    exact hd _ _ (deadlineKeyCompare_antisymm lc a b now hlc)
  · rw [compareConferences_location_eq, compareConferences_location_eq]
    exact hd _ _ (jsOr_antisymm _ _ _ _ (hlc _ _) (hlc _ _))

theorem claimC9_witness :
    LcAntisymm lcZero ∧
    (compareConferences lcZero [] (mkEntry "BBB" none none true)
        (mkEntry "AAA" none (some aoeDeadline) false) ⟨.deadline, .asc⟩ 0).sign =
      -(compareConferences lcZero [] (mkEntry "AAA" none (some aoeDeadline) false)
        (mkEntry "BBB" none none true) ⟨.deadline, .asc⟩ 0).sign :=
  ⟨fun _ _ => by simp [lcZero],
    claimC9_antisymmetry lcZero [] ⟨.deadline, .asc⟩ 0
      (mkEntry "AAA" none (some aoeDeadline) false)
      (mkEntry "BBB" none none true) (fun _ _ => by simp [lcZero])⟩

/-! ### Claim C8 — totality and crash-freedom -/

theorem usableDeadline_eq_some (c : Conference) (d : RecurringDeadline)
    (h : usableDeadline c = some d) : c.deadline = some d := by
  unfold usableDeadline at h
  split at h
  · exact absurd h (by simp)
  · exact h

theorem validEveryYear_of_usable (c : Conference) (d : RecurringDeadline)
    (hd : usableDeadline c = some d) (h : wellFormedEntry c = true) :
    validEveryYear d = true := by
  have := usableDeadline_eq_some c d hd
  simpa [wellFormedEntry, this] using h

theorem getNextOccurrenceChecked_eq (dl : RecurringDeadline) (pivot : Int)
    (h : validEveryYear dl = true) :
    getNextOccurrenceChecked dl pivot = some (getNextOccurrence dl pivot) := by
  simp only [getNextOccurrenceChecked, getNextOccurrence, buildDateChecked,
    validInYear_of_every dl _ h, if_true]
  split <;> rfl

theorem deadlineSortValueChecked_eq (c : Conference) (now : Int)
    (h : wellFormedEntry c = true) :
    deadlineSortValueChecked c now = deadlineSortValue c now := by
  rcases hd : usableDeadline c with _ | d <;>
    simp only [deadlineSortValueChecked, deadlineSortValue, hd]
  exact getNextOccurrenceChecked_eq d now (validEveryYear_of_usable c d hd h)

theorem defaultCompareChecked_eq (lc : String → String → Int) (a b : Conference)
    (now : Int) (ha : wellFormedEntry a = true) (hb : wellFormedEntry b = true) :
    defaultCompareChecked lc a b now = some (defaultCompare lc a b now) := by
  rcases hda : usableDeadline a with _ | da <;>
    rcases hdb : usableDeadline b with _ | db <;>
    simp only [defaultCompareChecked, defaultCompare, hda, hdb]
  rw [getNextOccurrenceChecked_eq da now (validEveryYear_of_usable a da hda ha),
    getNextOccurrenceChecked_eq db now (validEveryYear_of_usable b db hdb hb)]
  dsimp only
  split_ifs <;> rfl

/-- C8: for well-formed entries — including rolling entries and entries
with absent deadline, area or location — the comparison never goes
through an invalid date (`NaN`) or an unguarded field access: the
`NaN`-tracking model returns exactly the plain comparison value, for
every sort key, direction and `now`. -/
theorem claimC8_totalCrashFree (lc : String → String → Int)
    (areaOrder : List String) (a b : Conference) (sort : SortState) (now : Int)
    (ha : wellFormedEntry a = true) (hb : wellFormedEntry b = true) :
    compareConferencesChecked lc areaOrder a b sort now =
      some (compareConferences lc areaOrder a b sort now) := by
  obtain ⟨k, d⟩ := sort
  cases k <;>
    simp +decide only [compareConferencesChecked, compareConferences,
      ite_false, ite_true] <;>
    first
      | exact defaultCompareChecked_eq lc a b now ha hb
      | (rw [deadlineSortValueChecked_eq a now ha, deadlineSortValueChecked_eq b now hb]
         rcases deadlineSortValue a now with _ | va <;>
           rcases deadlineSortValue b now with _ | vb <;>
           dsimp only <;> split_ifs <;> rfl)
      | (split_ifs <;> rfl)
      | rfl

theorem claimC8_witness :
    wellFormedEntry (mkEntry "AAA" none (some aoeDeadline) false) = true ∧
    wellFormedEntry (mkEntry "BBB" none none true) = true ∧
    compareConferencesChecked lcZero [] (mkEntry "AAA" none (some aoeDeadline) false)
        (mkEntry "BBB" none none true) ⟨.default, .asc⟩ 0 =
      some (compareConferences lcZero [] (mkEntry "AAA" none (some aoeDeadline) false)
        (mkEntry "BBB" none none true) ⟨.default, .asc⟩ 0) :=
  ⟨by decide, by decide,
    claimC8_totalCrashFree lcZero [] _ _ ⟨.default, .asc⟩ 0 (by decide) (by decide)⟩

/-! ### Grouping lemmas -/

theorem lookupGroup_push (acc : List (String × List Conference)) (key : String)
    (c : Conference) (k : String) :
    lookupGroup (pushEntry acc key c) k =
      if k = key then some ((lookupGroup acc key).getD [] ++ [c])
      else lookupGroup acc k := by
  induction acc with
  | nil =>
    by_cases h : k = key
    · subst h; simp [pushEntry, lookupGroup]
    · simp [pushEntry, lookupGroup, h, Ne.symm h]
  | cons p rest ih =>
    obtain ⟨k', v'⟩ := p
    by_cases h1 : k' = key
    · subst h1
      by_cases h2 : k = k'
      · subst h2; simp [pushEntry, lookupGroup]
      · simp [pushEntry, lookupGroup, h2, Ne.symm h2]
    · by_cases h2 : k = k'
      · subst h2
        simp [pushEntry, lookupGroup, h1, Ne.symm h1, fun he : k = key => h1 (he ▸ rfl)]
      · simp [pushEntry, lookupGroup, h1, Ne.symm h2, ih]

theorem lookupGroup_foldl (l : List Conference)
    (acc : List (String × List Conference)) (k : String) :
    lookupGroup (l.foldl (fun acc c => pushEntry acc (areaLabelFor c) c) acc) k =
      match lookupGroup acc k with
      | some v => some (v ++ l.filter (fun c => areaLabelFor c == k))
      | none =>
        if (l.filter (fun c => areaLabelFor c == k)).isEmpty then none
        else some (l.filter (fun c => areaLabelFor c == k)) := by
  induction l generalizing acc with
  | nil => cases h : lookupGroup acc k <;> simp [h]
  | cons c l ih =>
    simp only [List.foldl_cons, ih, lookupGroup_push]
    by_cases hk : areaLabelFor c = k
    · subst hk
      simp only [List.filter_cons, beq_self_eq_true, if_pos rfl, if_true]
      cases h : lookupGroup acc (areaLabelFor c) <;> simp [h]
    · have hne : (areaLabelFor c == k) = false := by simp [hk]
      simp only [List.filter_cons, hne, if_neg (fun he : k = areaLabelFor c => hk he.symm)]
      simp only [Bool.false_eq_true, if_false]

theorem grouped_lookup (catalog : List Conference) (k : String) :
    lookupGroup (grouped catalog) k =
      if (catalog.filter (fun c => areaLabelFor c == k)).isEmpty then none
      else some (catalog.filter (fun c => areaLabelFor c == k)) := by
  rw [grouped, lookupGroup_foldl]
  rfl

theorem groupKeys_push (acc : List (String × List Conference)) (key : String)
    (c : Conference) :
    groupKeys (pushEntry acc key c) =
      if key ∈ groupKeys acc then groupKeys acc else groupKeys acc ++ [key] := by
  induction acc with
  | nil => simp [pushEntry, groupKeys]
  | cons p rest ih =>
    obtain ⟨k', v'⟩ := p
    by_cases h : k' = key
    · subst h; simp [pushEntry, groupKeys]
    · simp only [pushEntry, if_neg h]
      show k' :: groupKeys (pushEntry rest key c) =
        if key ∈ groupKeys ((k', v') :: rest) then groupKeys ((k', v') :: rest)
        else groupKeys ((k', v') :: rest) ++ [key]
      rw [ih]
      have hmem : key ∈ groupKeys ((k', v') :: rest) ↔ key ∈ groupKeys rest := by
        simp [groupKeys, List.mem_cons, Ne.symm h]
      by_cases hm : key ∈ groupKeys rest
      · rw [if_pos hm, if_pos (hmem.mpr hm)]
        rfl
      · rw [if_neg hm, if_neg (fun hx => hm (hmem.mp hx))]
        rfl

theorem groupKeys_foldl_nodup (l : List Conference)
    (acc : List (String × List Conference))
    (h : (groupKeys acc).Nodup) :
    (groupKeys (l.foldl (fun acc c => pushEntry acc (areaLabelFor c) c) acc)).Nodup := by
  induction l generalizing acc with
  | nil => exact h
  | cons c l ih =>
    simp only [List.foldl_cons]
    refine ih _ ?_
    rw [groupKeys_push]
    split_ifs with hm
    · exact h
    · simp [List.nodup_append, h, hm]

theorem grouped_keys_nodup (catalog : List Conference) :
    (groupKeys (grouped catalog)).Nodup :=
  groupKeys_foldl_nodup catalog [] (by simp [groupKeys])

theorem mem_groupKeys_iff (g : List (String × List Conference)) (k : String) :
    k ∈ groupKeys g ↔ lookupGroup g k ≠ none := by
  induction g with
  | nil => simp [groupKeys, lookupGroup]
  | cons p rest ih =>
    obtain ⟨k', v'⟩ := p
    by_cases h : k' = k
    · subst h; simp [groupKeys, lookupGroup]
    · show k ∈ k' :: groupKeys rest ↔ ¬lookupGroup ((k', v') :: rest) k = none
      rw [List.mem_cons]
      show _ ↔ ¬(if k' = k then some v' else lookupGroup rest k) = none
      rw [if_neg h]
      constructor
      · rintro (he | hm)
        · exact absurd he (Ne.symm h)
        · exact ih.mp hm
      · intro hl
        exact Or.inr (ih.mpr hl)

/-- Count of an entry across the per-key groups, for disjoint keys. -/
theorem count_flatten_groups (c : Conference) (n : Nat) (ks : List String)
    (f : String → List Conference) (hnd : ks.Nodup)
    (hf : ∀ k ∈ ks, List.count c (f k) = if areaLabelFor c = k then n else 0) :
    List.count c ((ks.map f).flatten) = if areaLabelFor c ∈ ks then n else 0 := by
  induction ks with
  | nil => simp
  | cons k ks ih =>
    simp only [List.map_cons, List.flatten_cons, List.count_append]
    rw [hf k (List.mem_cons_self k ks),
      ih (List.Nodup.of_cons hnd) (fun k' hk' => hf k' (List.mem_cons_of_mem k hk'))]
    by_cases hl : areaLabelFor c = k
    · subst hl
      have : areaLabelFor c ∉ ks := (List.nodup_cons.mp hnd).1
      simp [this]
    · simp only [if_neg hl, Nat.zero_add, List.mem_cons]
      by_cases hm : areaLabelFor c ∈ ks <;> simp [hm, hl]

/-! ### Claim C6 — sectioned view partition -/

/-- C6 (as stated, refuted): with one area-less entry, the resolved
group order lists the `"Other Conferences"` bucket twice (once as an
unreferenced key of the grouped record, once from the appended default
bucket), so the rendered groups contain the entry twice, not exactly
once. -/
theorem claimC6_counterexample :
    List.count (mkEntry "AAA" none none false)
      (sectionedEntries lcZero ["AI"] [mkEntry "AAA" none none false]
        ⟨.default, .asc⟩ 0) = 2 ∧
    List.count (mkEntry "AAA" none none false) [mkEntry "AAA" none none false] = 1 := by
  decide

/-- C6 (amended): provided the configured `areaOrder` has no duplicates
and does not contain the default bucket label, and no catalog entry
resolves to the `"Other Conferences"` label (every entry has a present
area not named like the default bucket), the sectioned view's groups
form an exact partition of the catalog — each entry appears exactly
once across the rendered groups — and every entry appears only in the
group labelled with its own resolved area (an entry whose area is
absent from `areaOrder` gets its own named group, not the `"Other"`
bucket). -/
theorem claimC6_sectionedPartition (lc : String → String → Int)
    (areaOrder : List String) (catalog : List Conference) (sort : SortState)
    (now : Int) (H1 : areaOrder.Nodup) (H2 : "Other Conferences" ∉ areaOrder)
    (H3 : ∀ c ∈ catalog, areaLabelFor c ≠ "Other Conferences") :
    (∀ c, List.count c (sectionedEntries lc areaOrder catalog sort now) =
      List.count c catalog) ∧
    (∀ c k l, (k, l) ∈ sortedByArea lc areaOrder catalog sort now → c ∈ l →
      k = areaLabelFor c) := by
  have hlk := grouped_lookup catalog
  have hpred : ∀ k : String,
      ((match lookupGroup (grouped catalog) k with
        | some l => !l.isEmpty
        | none => false) = true) ↔
        (catalog.filter (fun c => areaLabelFor c == k)).isEmpty = false := by
    intro k
    rw [hlk]
    split_ifs with h
    · simp [h]
    · simp [h]
  have hkeys : ∀ k : String, k ∈ groupKeys (grouped catalog) ↔
      (catalog.filter (fun c => areaLabelFor c == k)).isEmpty = false := by
    intro k
    rw [mem_groupKeys_iff, hlk]
    split_ifs with h
    · simp [h]
    · simp [h]
  have hOCempty : (catalog.filter
      (fun c => areaLabelFor c == "Other Conferences")).isEmpty = true := by
    rw [List.isEmpty_iff, List.filter_eq_nil_iff]
    intro c hc
    simpa using H3 c hc
  have hndks : (resolveAreaOrder areaOrder (grouped catalog)).Nodup := by
    apply List.Nodup.filter
    rw [List.nodup_append]
    refine ⟨?_, ?_, ?_⟩
    · rw [List.nodup_append]
      refine ⟨H1, (grouped_keys_nodup catalog).filter _, ?_⟩
      intro x hx hy
      rcases List.mem_filter.mp hy with ⟨_, hy2⟩
      simp only [Bool.not_eq_true'] at hy2
      exact absurd hx (by simpa using hy2)
    · simp [DEFAULT_AREA_ORDER]
    · intro x hx hy
      simp only [DEFAULT_AREA_ORDER, List.mem_singleton] at hy
      subst hy
      rcases List.mem_append.mp hx with hx | hx
      · exact H2 hx
      · rcases List.mem_filter.mp hx with ⟨hx1, _⟩
        rw [hkeys] at hx1
        rw [hOCempty] at hx1
        exact absurd hx1 (by decide)
  have hsort_count : ∀ (c : Conference) (l : List Conference),
      List.count c (sortConfs lc areaOrder l sort now) = List.count c l :=
    fun c l => (List.perm_insertionSort _ l).count_eq c
  have hmemks : ∀ c ∈ catalog,
      areaLabelFor c ∈ resolveAreaOrder areaOrder (grouped catalog) := by
    intro c hc
    have hcf : c ∈ catalog.filter (fun x => areaLabelFor x == areaLabelFor c) :=
      List.mem_filter.mpr ⟨hc, by simp⟩
    have hfne : (catalog.filter
        (fun x => areaLabelFor x == areaLabelFor c)).isEmpty = false := by
      cases e : (catalog.filter (fun x => areaLabelFor x == areaLabelFor c)).isEmpty
      · rfl
      · rw [List.isEmpty_iff] at e
        rw [e] at hcf
        exact absurd hcf (by simp)
    apply List.mem_filter.mpr
    refine ⟨?_, (hpred _).mpr hfne⟩
    by_cases hmo : areaLabelFor c ∈ areaOrder
    · exact List.mem_append.mpr (Or.inl (List.mem_append.mpr (Or.inl hmo)))
    · refine List.mem_append.mpr (Or.inl (List.mem_append.mpr (Or.inr ?_)))
      apply List.mem_filter.mpr
      refine ⟨(hkeys _).mpr hfne, by simpa using hmo⟩
  constructor
  · intro c
    have hsec : sectionedEntries lc areaOrder catalog sort now =
        ((resolveAreaOrder areaOrder (grouped catalog)).map
          (fun a => sortConfs lc areaOrder
            ((lookupGroup (grouped catalog) a).getD []) sort now)).flatten := by
      simp only [sectionedEntries, sortedByArea, List.map_map]
      rfl
    have hf : ∀ k ∈ resolveAreaOrder areaOrder (grouped catalog),
        List.count c (sortConfs lc areaOrder
          ((lookupGroup (grouped catalog) k).getD []) sort now) =
          if areaLabelFor c = k then List.count c catalog else 0 := by
      intro k hk
      have hfne := (hpred k).mp ((List.mem_filter.mp hk).2)
      rw [hsort_count, hlk, if_neg (by simp [hfne])]
      simp only [Option.getD_some]
      by_cases hl : areaLabelFor c = k
      · rw [if_pos hl]
        exact List.count_filter (by simp [hl])
      · rw [if_neg hl]
        apply List.count_eq_zero.mpr
        intro hmem
        exact hl (by simpa using (List.mem_filter.mp hmem).2)
    rw [hsec, count_flatten_groups c (List.count c catalog) _ _ hndks hf]
    by_cases hc : c ∈ catalog
    · rw [if_pos (hmemks c hc)]
    · have : List.count c catalog = 0 := List.count_eq_zero.mpr hc
      split_ifs <;> omega
  · intro c k l hkl hcl
    simp only [sortedByArea, List.mem_map] at hkl
    obtain ⟨a, ha, hpair⟩ := hkl
    have hak : k = a := (congrArg Prod.fst hpair).symm
    have hlv : l = sortConfs lc areaOrder
        ((lookupGroup (grouped catalog) a).getD []) sort now :=
      (congrArg Prod.snd hpair).symm
    rw [hlv] at hcl
    have hcl' : c ∈ (lookupGroup (grouped catalog) a).getD [] :=
      ((List.perm_insertionSort _ _).mem_iff).mp hcl
    rw [hlk] at hcl'
    split_ifs at hcl' with h
    · simp at hcl'
    · simp only [Option.getD_some] at hcl'
      rw [hak]
      exact ((by simpa using (List.mem_filter.mp hcl').2 : areaLabelFor c = a)).symm

theorem claimC6_witness :
    (["AI"] : List String).Nodup ∧
    ("Other Conferences" ∉ (["AI"] : List String)) ∧
    (∀ c ∈ [mkEntry "AAA" (some "AI") none false,
      mkEntry "BBB" (some "XX") none false],
        areaLabelFor c ≠ "Other Conferences") ∧
    List.count (mkEntry "AAA" (some "AI") none false)
        (sectionedEntries lcZero ["AI"]
          [mkEntry "AAA" (some "AI") none false,
            mkEntry "BBB" (some "XX") none false] ⟨.default, .asc⟩ 0) =
      List.count (mkEntry "AAA" (some "AI") none false)
        [mkEntry "AAA" (some "AI") none false,
          mkEntry "BBB" (some "XX") none false] :=
  ⟨by decide, by decide, by decide,
    (claimC6_sectionedPartition lcZero ["AI"]
      [mkEntry "AAA" (some "AI") none false, mkEntry "BBB" (some "XX") none false]
      ⟨.default, .asc⟩ 0 (by decide) (by decide) (by decide)).1
      (mkEntry "AAA" (some "AI") none false)⟩

/-! ### Claim C7 — the upcoming projection -/

/-- C7: the `upcoming` projection lists, in ascending order of resolved
instant, a prefix of the sorted dated entries of length
`min 4 (number of dated entries)`; together with the dropped suffix it
is a permutation of the dated entries, and every listed entry's instant
is at most every dropped entry's instant — it is exactly the (up to) 4
nearest resolvable occurrences.  It is computed from the catalog and
`now` alone, so it does not depend on the active sort or view state. -/
theorem claimC7_upcoming (catalog : List Conference) (now : Int) :
    List.Pairwise (fun x y : Conference × Int => x.2 ≤ y.2) (upcoming catalog now) ∧
    (upcoming catalog now).length = min 4 (upcomingPool catalog now).length ∧
    (upcoming catalog now ++
      (List.insertionSort (fun x y : Conference × Int => x.2 ≤ y.2)
        (upcomingPool catalog now)).drop 4).Perm (upcomingPool catalog now) ∧
    (∀ x ∈ upcoming catalog now,
      ∀ y ∈ (List.insertionSort (fun x y : Conference × Int => x.2 ≤ y.2)
        (upcomingPool catalog now)).drop 4, x.2 ≤ y.2) := by
  haveI : IsTotal (Conference × Int) (fun x y => x.2 ≤ y.2) :=
    ⟨fun a b => le_total a.2 b.2⟩
  haveI : IsTrans (Conference × Int) (fun x y => x.2 ≤ y.2) :=
    ⟨fun _ _ _ hab hbc => le_trans hab hbc⟩
  have hs := List.sorted_insertionSort (fun x y : Conference × Int => x.2 ≤ y.2)
    (upcomingPool catalog now)
  refine ⟨?_, ?_, ?_, ?_⟩
  · exact List.Pairwise.sublist (List.take_sublist 4 _) hs
  · rw [show upcoming catalog now = (List.insertionSort
      (fun x y : Conference × Int => x.2 ≤ y.2) (upcomingPool catalog now)).take 4
      from rfl]
    rw [List.length_take, (List.perm_insertionSort _ _).length_eq]
  · rw [show upcoming catalog now = (List.insertionSort
      (fun x y : Conference × Int => x.2 ≤ y.2) (upcomingPool catalog now)).take 4
      from rfl]
    rw [List.take_append_drop]
    exact List.perm_insertionSort _ _
  · have hs' := hs
    rw [← List.take_append_drop 4 (List.insertionSort
      (fun x y : Conference × Int => x.2 ≤ y.2) (upcomingPool catalog now))] at hs'
    exact (List.pairwise_append.mp hs').2.2

theorem claimC7_witness :
    ((mkEntry "CB" none (some (marchDeadline 1)) false,
        getNextOccurrence (marchDeadline 1) 0) ∈ upcoming sampleCatalog 0) ∧
    ((mkEntry "CA" none (some (marchDeadline 5)) false,
        getNextOccurrence (marchDeadline 5) 0) ∈
      (List.insertionSort (fun x y : Conference × Int => x.2 ≤ y.2)
        (upcomingPool sampleCatalog 0)).drop 4) ∧
    (upcoming sampleCatalog 0).length = min 4 (upcomingPool sampleCatalog 0).length ∧
    getNextOccurrence (marchDeadline 1) 0 ≤ getNextOccurrence (marchDeadline 5) 0 :=
  ⟨by decide, by decide,
    (claimC7_upcoming sampleCatalog 0).2.1,
    (claimC7_upcoming sampleCatalog 0).2.2.2
      (mkEntry "CB" none (some (marchDeadline 1)) false,
        getNextOccurrence (marchDeadline 1) 0) (by decide)
      (mkEntry "CA" none (some (marchDeadline 5)) false,
        getNextOccurrence (marchDeadline 5) 0) (by decide)⟩

/-! ### Claim C2 — recurrence resolution -/

/-- C2 (as stated, refuted): with the deadline January 1, 00:00 at UTC
offset `+14:00` — a valid calendar timestamp in the pivot's year and the
next — and the pivot 2025-12-31T12:00Z, `getNextOccurrence` returns an
instant strictly before the pivot, not after it. -/
theorem claimC2_counterexample :
    validInYear plusFourteenDeadline (getUTCFullYear pivotLateDec) = true ∧
    validInYear plusFourteenDeadline (getUTCFullYear pivotLateDec + 1) = true ∧
    getNextOccurrence plusFourteenDeadline pivotLateDec < pivotLateDec := by
  decide

/-- C2 (amended): for a recurring deadline whose fields form a valid
calendar timestamp in the pivot's year and the next and whose UTC
offset is non-positive, `getNextOccurrence` equals the instant built
with the pivot's year when that instant is strictly after the pivot and
the instant built with the next year otherwise, and in every case the
result is strictly after the pivot. -/
theorem claimC2_nextOccurrence (dl : RecurringDeadline) (P : Int)
    (_hv1 : validInYear dl (getUTCFullYear P) = true)
    (hv2 : validInYear dl (getUTCFullYear P + 1) = true)
    (hoff : dl.offset ≤ 0) :
    getNextOccurrence dl P =
      (if P < buildDate dl (getUTCFullYear P) then buildDate dl (getUTCFullYear P)
       else buildDate dl (getUTCFullYear P + 1)) ∧
    P < getNextOccurrence dl P :=
  ⟨getNextOccurrence_eq dl P, getNextOccurrence_gt dl P hv2 hoff⟩

theorem claimC2_witness :
    validInYear aoeDeadline (getUTCFullYear 0) = true ∧
    validInYear aoeDeadline (getUTCFullYear 0 + 1) = true ∧
    aoeDeadline.offset ≤ 0 ∧
    (getNextOccurrence aoeDeadline 0 =
      (if (0 : Int) < buildDate aoeDeadline (getUTCFullYear 0) then
        buildDate aoeDeadline (getUTCFullYear 0)
      else buildDate aoeDeadline (getUTCFullYear 0 + 1)) ∧
    (0 : Int) < getNextOccurrence aoeDeadline 0) :=
  ⟨by decide, by decide, by decide,
    claimC2_nextOccurrence aoeDeadline 0 (by decide) (by decide) (by decide)⟩

/-! ### Claim C3 — countdown formatting -/

/-- C3: `formatCountdown` returns `"Closed"` exactly when the target is
at or before `now`; otherwise, decomposing the whole-second difference
into days, hours, minutes and seconds, it renders `"{d}d {h}h {m}m"`
when `d > 0`, `"{h}h {m}m {s}s"` when `d = 0 < h`, and `"{m}m {s}s"`
otherwise. -/
theorem claimC3_formatCountdown (T now : Int) :
    (formatCountdown T now = "Closed" ↔ T ≤ now) ∧
    (now < T →
      ∃ d h m s : Nat,
        ((T - now) / 1000).toNat = ((d * 24 + h) * 60 + m) * 60 + s ∧
        h < 24 ∧ m < 60 ∧ s < 60 ∧
        formatCountdown T now =
          (if 0 < d then
            toString d ++ "d " ++ toString h ++ "h " ++ toString m ++ "m"
          else if 0 < h then
            toString h ++ "h " ++ toString m ++ "m " ++ toString s ++ "s"
          else toString m ++ "m " ++ toString s ++ "s")) := by
  refine ⟨formatCountdown_closed_iff T now, fun hlt => ?_⟩
  refine ⟨((T - now) / 1000).toNat / (24 * 60 * 60),
    ((T - now) / 1000).toNat % (24 * 60 * 60) / (60 * 60),
    ((T - now) / 1000).toNat % (60 * 60) / 60,
    ((T - now) / 1000).toNat % 60,
    by omega, by omega, by omega, by omega, ?_⟩
  simp only [formatCountdown]
  rw [if_neg (by omega)]

theorem claimC3_witness :
    formatCountdown 0 5 = "Closed" ∧
    (∃ d h m s : Nat,
      (((61000 : Int) - 0) / 1000).toNat = ((d * 24 + h) * 60 + m) * 60 + s ∧
      h < 24 ∧ m < 60 ∧ s < 60 ∧
      formatCountdown 61000 0 =
        (if 0 < d then
          toString d ++ "d " ++ toString h ++ "h " ++ toString m ++ "m"
        else if 0 < h then
          toString h ++ "h " ++ toString m ++ "m " ++ toString s ++ "s"
        else toString m ++ "m " ++ toString s ++ "s")) :=
  ⟨(claimC3_formatCountdown 0 5).1.mpr (by decide),
    (claimC3_formatCountdown 61000 0).2 (by decide)⟩

/-! ### Claim C10 — dated entries and the Closed status -/

/-- C10 (as stated, refuted): with the deadline January 1, 00:00 at UTC
offset `+14:00` and now 2025-12-31T12:00Z, the resolved occurrence is in
the past and the rendered countdown is exactly `"Closed"`. -/
theorem claimC10_counterexample :
    validInYear plusFourteenDeadline (getUTCFullYear pivotLateDec) = true ∧
    validInYear plusFourteenDeadline (getUTCFullYear pivotLateDec + 1) = true ∧
    formatCountdown (getNextOccurrence plusFourteenDeadline pivotLateDec)
      pivotLateDec = "Closed" := by
  decide

/-- C10 (amended): for every recurring deadline whose fields form a
valid calendar timestamp in the pivot's year and the next and whose UTC
offset is non-positive, the countdown of the resolved next occurrence
is never `"Closed"`. -/
theorem claimC10_notClosed (dl : RecurringDeadline) (P : Int)
    (_hv1 : validInYear dl (getUTCFullYear P) = true)
    (hv2 : validInYear dl (getUTCFullYear P + 1) = true)
    (hoff : dl.offset ≤ 0) :
    formatCountdown (getNextOccurrence dl P) P ≠ "Closed" := by
  intro h
  have h1 := (formatCountdown_closed_iff _ _).mp h
  have h2 := getNextOccurrence_gt dl P hv2 hoff
  omega

theorem claimC10_witness :
    validInYear aoeDeadline (getUTCFullYear 0) = true ∧
    validInYear aoeDeadline (getUTCFullYear 0 + 1) = true ∧
    aoeDeadline.offset ≤ 0 ∧
    formatCountdown (getNextOccurrence aoeDeadline 0) 0 ≠ "Closed" :=
  ⟨by decide, by decide, by decide,
    claimC10_notClosed aoeDeadline 0 (by decide) (by decide) (by decide)⟩

end ConfDDL
